import Mathlib

/-!
Verification development for the blank-app repository.

Part I embeds the EmailHarvester pipeline described in the specification
(URL normalization, bounded fetch, tolerant decoding, email extraction,
junk filtering, deduplication, sorted output).  The harvester itself is
not present under src/ (the repository copy shipped here contains only
the Streamlit CRM front-end), so the harvester definitions are modelled
from the spec, as their doc comments state.

Part II embeds the account store and the Quick Update handler of
src/streamlit_app.py: SHA-256 password hashing (hashlib.sha256 hexdigest),
case-insensitive email lookup, and the row update written back to CSV.

String primitives (strip, lower, prefix test, suffix test, lexicographic
comparison) are implemented over character lists so that every
definition evaluates by kernel reduction; they mirror the Python string
methods the source uses.
-/

namespace BlankApp

/-! ### String primitives (Python string methods over character lists) -/

/-- The whitespace characters Python str.strip() removes (ASCII set;
the inputs at stake are ASCII). -/
def isPySpace (c : Char) : Bool :=
  c == ' ' || c == '\t' || c == '\n' || c == '\r' || c == '\x0b' || c == '\x0c'

/-- Python str.strip(): drop leading and trailing whitespace. -/
def pyStrip (s : String) : String :=
  String.mk (((s.data.dropWhile isPySpace).reverse.dropWhile isPySpace).reverse)

/-- Python str.lower() restricted to ASCII, matching the ASCII strings
at stake. -/
def pyLower (s : String) : String := String.mk (s.data.map Char.toLower)

/-- Whether p is a prefix of s, as Python str.startswith. -/
def strHasPre (s p : String) : Bool := s.data.take p.data.length == p.data

/-- Whether e is a suffix of s, as Python str.endswith. -/
def strHasSuf (s e : String) : Bool := s.data.drop (s.data.length - e.data.length) == e.data

/-- Lexicographic comparison of character lists by code point, the
ordinary string ordering. -/
def charsLt : List Char → List Char → Bool
  | [], [] => false
  | [], _ :: _ => true
  | _ :: _, [] => false
  | a :: as, b :: bs =>
    if a.toNat < b.toNat then true
    else if b.toNat < a.toNat then false
    else charsLt as bs

/-- Ordinary (lexicographic) string comparison, executable. -/
def strLt (x y : String) : Bool := charsLt x.data y.data

/-! ### Part I: EmailHarvester (modelled from the spec) -/

/-- Modelled from the spec: the outcome of the single HTTP GET.  The
harvester implementation is not under src/; the network is represented
as an oracle mapping a URL to either a transport-level failure or a raw
byte body. -/
inductive FetchOutcome where
  | failure
  | success (body : List Nat)
deriving DecidableEq

/-- Modelled from the spec: trim the raw URL and, when the trimmed form
lacks an http:// or https:// scheme, prepend https://. -/
def normalizeUrl (rawUrl : String) : String :=
  let t := pyStrip rawUrl
  if strHasPre t "http://" || strHasPre t "https://" then t
  else "https://" ++ t

def isContByte (b : Nat) : Bool := decide (0x80 ≤ b ∧ b < 0xC0)

def replChar : Char := Char.ofNat 0xFFFD

/-- Modelled from the spec: UTF-8 decoding with invalid-sequence
tolerance (each malformed byte is replaced, decoding never fails).
Because the tolerant decode is total, the spec's Latin-1 fallback branch
is unreachable and is not modelled separately.  The fuel argument is the
length of the byte list; each step consumes at least one byte. -/
def utf8DecodeAux : Nat → List Nat → List Char
  | 0, _ => []
  | _ + 1, [] => []
  | fuel + 1, b :: rest =>
    if b < 0x80 then
      Char.ofNat b :: utf8DecodeAux fuel rest
    else if 0xC2 ≤ b ∧ b ≤ 0xDF then
      match rest with
      | b1 :: rest1 =>
        if isContByte b1 then
          Char.ofNat ((b - 0xC0) * 0x40 + (b1 - 0x80)) :: utf8DecodeAux fuel rest1
        else replChar :: utf8DecodeAux fuel rest
      | [] => [replChar]
    else if 0xE0 ≤ b ∧ b ≤ 0xEF then
      match rest with
      | b1 :: b2 :: rest2 =>
        if isContByte b1 ∧ isContByte b2 ∧ (b = 0xE0 → 0xA0 ≤ b1) ∧ (b = 0xED → b1 ≤ 0x9F) then
          Char.ofNat ((b - 0xE0) * 0x1000 + (b1 - 0x80) * 0x40 + (b2 - 0x80))
            :: utf8DecodeAux fuel rest2
        else replChar :: utf8DecodeAux fuel rest
      | _ => [replChar]
    else if 0xF0 ≤ b ∧ b ≤ 0xF4 then
      match rest with
      | b1 :: b2 :: b3 :: rest3 =>
        if isContByte b1 ∧ isContByte b2 ∧ isContByte b3
            ∧ (b = 0xF0 → 0x90 ≤ b1) ∧ (b = 0xF4 → b1 ≤ 0x8F) then
          Char.ofNat ((b - 0xF0) * 0x40000 + (b1 - 0x80) * 0x1000
              + (b2 - 0x80) * 0x40 + (b3 - 0x80)) :: utf8DecodeAux fuel rest3
        else replChar :: utf8DecodeAux fuel rest
      | _ => [replChar]
    else
      replChar :: utf8DecodeAux fuel rest

/-- Modelled from the spec: interpret the fetched bytes as text, never
failing. -/
def decodeBytes (bs : List Nat) : String := String.mk (utf8DecodeAux bs.length bs)

/-- Character class of the email pattern's local part. -/
def isLocalChar (c : Char) : Bool :=
  c.isAlpha || c.isDigit || c == '.' || c == '_' || c == '%' || c == '+' || c == '-'

/-- Character class of the email pattern's domain. -/
def isDomainChar (c : Char) : Bool := c.isAlpha || c.isDigit || c == '.' || c == '-'

/-- A split point of a maximal domain-character run: at least one domain
character before the dot, a literal dot, and at least two alphabetic
characters after it. -/
def goodSplit (dom : List Char) (a : Nat) : Bool :=
  decide (1 ≤ a) && (dom.get? a == some '.')
    && decide (2 ≤ ((dom.drop (a + 1)).takeWhile Char.isAlpha).length)

/-- Modelled from the spec: greedy match of the domain part
[A-Za-z0-9.-]+\.[A-Za-z]\x7b2,\x7d inside the maximal run of domain
characters, backtracking from the rightmost feasible dot, as a regex
engine does.  Returns the number of characters consumed. -/
def matchDomain (dom : List Char) : Option Nat :=
  match (List.range dom.length).reverse.find? (goodSplit dom) with
  | some a => some (a + 1 + ((dom.drop (a + 1)).takeWhile Char.isAlpha).length)
  | none => none

/-- Modelled from the spec: attempt to match one email candidate at the
head of the character list.  On success, returns the matched string and
the characters after the match. -/
def matchEmailAt (cs : List Char) : Option (String × List Char) :=
  let loc := cs.takeWhile isLocalChar
  match loc, cs.drop loc.length with
  | [], _ => none
  | _ :: _, '@' :: afterAt =>
    let dom := afterAt.takeWhile isDomainChar
    match matchDomain dom with
    | some dlen => some (String.mk (loc ++ '@' :: dom.take dlen), afterAt.drop dlen)
    | none => none
  | _ :: _, _ => none

/-- Modelled from the spec: scan the text left to right for all
non-overlapping matches of the email pattern; after a failed attempt the
scan advances by one character.  Fuel is the text length. -/
def findEmailsAux : Nat → List Char → List String
  | 0, _ => []
  | _ + 1, [] => []
  | fuel + 1, c :: rest =>
    match matchEmailAt (c :: rest) with
    | some (m, remaining) => m :: findEmailsAux fuel remaining
    | none => findEmailsAux fuel rest

/-- Modelled from the spec: all email-like tokens of the decoded text. -/
def findEmails (text : String) : List String := findEmailsAux text.data.length text.data

/-- The junk suffixes that disqualify a match (asset filenames). -/
def IMAGE_SUFFIXES : List String := [".png", ".jpg", ".jpeg", ".gif", ".svg"]

/-- Modelled from the spec: a match is junk when its lowercased form
ends with one of the excluded image-file suffixes. -/
def isJunk (s : String) : Bool := IMAGE_SUFFIXES.any (fun ext => strHasSuf (pyLower s) ext)

/-- Insert a string into a strictly sorted list, skipping duplicates. -/
def insertEmail (x : String) : List String → List String
  | [] => [x]
  | y :: ys =>
    if x = y then y :: ys
    else if strLt x y then x :: y :: ys
    else y :: insertEmail x ys

/-- Modelled from the spec: deduplicate by exact string equality and
sort ascending by ordinary string comparison. -/
def dedupSort (l : List String) : List String := l.foldr insertEmail []

/-- Modelled from the spec: extract matches, drop junk, deduplicate and
sort. -/
def extractEmails (text : String) : List String :=
  dedupSort ((findEmails text).filter (fun m => !isJunk m))

/-- The observable result of a harvest: the returned email list and the
number of network calls performed. -/
structure HarvestOutput where
  emails : List String
  networkCalls : Nat
deriving DecidableEq

/-- Modelled from the spec: the harvester.  An empty trimmed URL returns
immediately with no network access; otherwise a single GET against the
normalized URL is issued, a transport failure degrades to an empty
result, and a successful body is truncated to maxBytes bytes, decoded
and scanned. -/
def harvest (rawUrl : String) (maxBytes : Nat) (fetch : String → FetchOutcome) : HarvestOutput :=
  if pyStrip rawUrl = "" then ⟨[], 0⟩
  else
    match fetch (normalizeUrl rawUrl) with
    | .failure => ⟨[], 1⟩
    | .success body => ⟨extractEmails (decodeBytes (body.take maxBytes)), 1⟩

/-! ### Part II: account store and CRM of src/streamlit_app.py

SHA-256 (FIPS 180-4) over naturals, embedding hashlib.sha256(...).hexdigest()
as used by hash_password.  Machine words are naturals reduced mod 2^32. -/

def w32 (n : Nat) : Nat := n % 2 ^ 32

def rotr (x n : Nat) : Nat := w32 (x / 2 ^ n + x % 2 ^ n * 2 ^ (32 - n))

def shr (x n : Nat) : Nat := x / 2 ^ n

def notw (x : Nat) : Nat := 0xFFFFFFFF ^^^ x

def ch (x y z : Nat) : Nat := (x &&& y) ^^^ (notw x &&& z)

def maj (x y z : Nat) : Nat := (x &&& y) ^^^ (x &&& z) ^^^ (y &&& z)

def bigSigma0 (x : Nat) : Nat := rotr x 2 ^^^ rotr x 13 ^^^ rotr x 22

def bigSigma1 (x : Nat) : Nat := rotr x 6 ^^^ rotr x 11 ^^^ rotr x 25

def smallSigma0 (x : Nat) : Nat := rotr x 7 ^^^ rotr x 18 ^^^ shr x 3

def smallSigma1 (x : Nat) : Nat := rotr x 17 ^^^ rotr x 19 ^^^ shr x 10

def K256 : List Nat :=
  [1116352408, 1899447441, 3049323471, 3921009573, 961987163, 1508970993,
   2453635748, 2870763221, 3624381080, 310598401, 607225278, 1426881987,
   1925078388, 2162078206, 2614888103, 3248222580, 3835390401, 4022224774,
   264347078, 604807628, 770255983, 1249150122, 1555081692, 1996064986,
   2554220882, 2821834349, 2952996808, 3210313671, 3336571891, 3584528711,
   113926993, 338241895, 666307205, 773529912, 1294757372, 1396182291,
   1695183700, 1986661051, 2177026350, 2456956037, 2730485921, 2820302411,
   3259730800, 3345764771, 3516065817, 3600352804, 4094571909, 275423344,
   430227734, 506948616, 659060556, 883997877, 958139571, 1322822218,
   1537002063, 1747873779, 1955562222, 2024104815, 2227730452, 2361852424,
   2428436474, 2756734187, 3204031479, 3329325298]

def H256 : List Nat :=
  [0x6a09e667, 0xbb67ae85, 0x3c6ef372, 0xa54ff53a, 0x510e527f, 0x9b05688c, 0x1f83d9ab, 0x5be0cd19]

/-- Pad a byte message: append 0x80, zero bytes to 56 mod 64, then the
bit length as 8 big-endian bytes. -/
def sha256Pad (msg : List Nat) : List Nat :=
  let L := msg.length
  let z := (120 - (L + 1) % 64) % 64
  msg ++ 0x80 :: List.replicate z 0 ++
    [56, 48, 40, 32, 24, 16, 8, 0].map (fun i => 8 * L / 2 ^ i % 256)

/-- Split a byte list into 64-byte blocks (fuel is the list length). -/
def chunks64 : Nat → List Nat → List (List Nat)
  | 0, _ => []
  | _ + 1, [] => []
  | fuel + 1, l => l.take 64 :: chunks64 fuel (l.drop 64)

/-- Extend a message schedule by one word. -/
def scheduleStep (w : List Nat) (_ : Nat) : List Nat :=
  let n := w.length
  w ++ [w32 (smallSigma1 (w.getD (n - 2) 0) + w.getD (n - 7) 0
        + smallSigma0 (w.getD (n - 15) 0) + w.getD (n - 16) 0)]

/-- The 64-word message schedule of one block. -/
def schedule (block : List Nat) : List Nat :=
  let w0 := (List.range 16).map (fun i =>
    block.getD (4 * i) 0 * 0x1000000 + block.getD (4 * i + 1) 0 * 0x10000
      + block.getD (4 * i + 2) 0 * 0x100 + block.getD (4 * i + 3) 0)
  (List.range 48).foldl scheduleStep w0

/-- One round of the SHA-256 compression function. -/
def compressStep (st : List Nat) (kw : Nat × Nat) : List Nat :=
  match st with
  | [a, b, c, d, e, f, g, h] =>
    let t1 := w32 (h + bigSigma1 e + ch e f g + kw.1 + kw.2)
    let t2 := w32 (bigSigma0 a + maj a b c)
    [w32 (t1 + t2), a, b, c, w32 (d + t1), e, f, g]
  | other => other

/-- Process one 64-byte block. -/
def sha256Block (h : List Nat) (block : List Nat) : List Nat :=
  let st := ((K256.zip (schedule block))).foldl compressStep h
  (h.zip st).map (fun p => w32 (p.1 + p.2))

/-- The eight 32-bit hash words of a byte message. -/
def sha256Words (msg : List Nat) : List Nat :=
  let padded := sha256Pad msg
  (chunks64 padded.length padded).foldl sha256Block H256

def hexDigit (n : Nat) : Char :=
  if n < 10 then Char.ofNat (48 + n) else Char.ofNat (87 + n)

/-- Lowercase hex digest, as hexdigest() renders it. -/
def sha256Hex (msg : List Nat) : String :=
  String.mk (((sha256Words msg).map (fun wd =>
    [28, 24, 20, 16, 12, 8, 4, 0].map (fun i => hexDigit (wd / 2 ^ i % 16)))).flatten)

/-- UTF-8 encoding of one character, embedding str.encode("utf-8"). -/
def utf8EncodeChar (c : Char) : List Nat :=
  let n := c.toNat
  if n < 0x80 then [n]
  else if n < 0x800 then [0xC0 + n / 0x40, 0x80 + n % 0x40]
  else if n < 0x10000 then [0xE0 + n / 0x1000, 0x80 + n / 0x40 % 0x40, 0x80 + n % 0x40]
  else [0xF0 + n / 0x40000, 0x80 + n / 0x1000 % 0x40, 0x80 + n / 0x40 % 0x40, 0x80 + n % 0x40]

def utf8Encode (s : String) : List Nat := (s.data.map utf8EncodeChar).flatten

/-- hash_password from streamlit_app.py: SHA-256 hex digest of the
UTF-8 encoded password. -/
def hash_password (password : String) : String := sha256Hex (utf8Encode password)

/-- One row of users.csv. -/
structure UserRow where
  email : String
  password_hash : String
deriving DecidableEq

/-- user_exists from streamlit_app.py: some row's lowercased email
equals the lowercased query. -/
def user_exists (db : List UserRow) (email : String) : Bool :=
  db.any (fun r => pyLower r.email == pyLower email)

/-- create_user from streamlit_app.py: append a row with the stripped
email and the hash of the stripped password. -/
def create_user (db : List UserRow) (email password : String) : List UserRow :=
  db ++ [{ email := pyStrip email, password_hash := hash_password (pyStrip password) }]

/-- verify_user from streamlit_app.py: take the first row whose
lowercased email matches and compare its stored hash with the hash of
the password as given (not stripped); False on an empty table or no
match. -/
def verify_user (db : List UserRow) (email password : String) : Bool :=
  match db.find? (fun r => pyLower r.email == pyLower email) with
  | some r => r.password_hash == hash_password password
  | none => false

/-- One row of sprayfoam_crm.csv (all cells modelled as strings, as the
text inputs store them). -/
structure CrmRecord where
  id : String
  customer_name : String
  company_name : String
  phone : String
  email : String
  address : String
  city : String
  state : String
  zip_code : String
  lead_source : String
  building_type : String
  service_type : String
  roof_type : String
  square_feet : String
  estimated_value : String
  status : String
  next_follow_up : String
  notes : String
deriving DecidableEq

/-- save_data from streamlit_app.py: df.to_csv persists exactly the
rows it is given; the CSV round-trip is modelled as the identity on the
row list. -/
def save_data (df : List CrmRecord) : List CrmRecord := df

/-- The Save Quick Update handler: set status and next_follow_up of the
selected row in place, leaving everything else as it was. -/
def quickUpdate (df : List CrmRecord) (idx : Nat) (newStatus newFollowUp : String) :
    List CrmRecord :=
  match df[idx]? with
  | none => df
  | some r => df.set idx { r with status := newStatus, next_follow_up := newFollowUp }

/-- The rows written back to the CSV by the Save Quick Update handler. -/
def saveQuickUpdate (df : List CrmRecord) (idx : Nat) (newStatus newFollowUp : String) :
    List CrmRecord :=
  save_data (quickUpdate df idx newStatus newFollowUp)

/-! ### Order bridge: the executable comparison agrees with the ambient
string order -/

theorem charsLt_iff_lex : ∀ as bs : List Char,
    charsLt as bs = true ↔ List.Lex (· < ·) as bs
  | [], [] => by
    simp only [charsLt]
    exact iff_of_false (by simp) (fun h => nomatch h)
  | [], _ :: _ => by
    simp only [charsLt]
    exact iff_of_true trivial List.Lex.nil
  | _ :: _, [] => by
    simp only [charsLt]
    exact iff_of_false (by simp) (fun h => nomatch h)
  | a :: as, b :: bs => by
    simp only [charsLt]
    rcases Nat.lt_trichotomy a.toNat b.toNat with hab | hab | hab
    · simp only [if_pos hab]
      exact iff_of_true trivial (List.Lex.rel (show a.toNat < b.toNat from hab))
    · have hne : ¬ a.toNat < b.toNat := by omega
      have hne' : ¬ b.toNat < a.toNat := by omega
      have heq : a = b := Char.eq_of_val_eq (by
        apply UInt32.eq_of_val_eq
        exact Fin.ext hab)
      simp only [if_neg hne, if_neg hne']
      rw [charsLt_iff_lex as bs]
      subst heq
      constructor
      · intro h; exact List.Lex.cons h
      · intro h
        cases h with
        | cons h => exact h
        | rel h => exact absurd (show a.toNat < a.toNat from h) (lt_irrefl _)
    · have hne : ¬ a.toNat < b.toNat := by omega
      simp only [if_neg hne, if_pos hab]
      constructor
      · intro h; exact absurd h (by simp)
      · intro h
        cases h with
        | cons h' => exact absurd hab (lt_irrefl _)
        | rel h' => exact absurd (show a.toNat < b.toNat from h') hne

theorem strLt_iff_lt (x y : String) : strLt x y = true ↔ x < y := by
  rw [String.lt_iff_toList_lt]
  exact charsLt_iff_lex x.data y.data

/-! ### Deduplicated sorted output -/

theorem mem_insertEmail {z x : String} : ∀ {l : List String},
    z ∈ insertEmail x l → z = x ∨ z ∈ l
  | [], h => by simpa [insertEmail] using h
  | y :: ys, h => by
    unfold insertEmail at h
    by_cases hxy : x = y
    · simp only [if_pos hxy] at h
      exact Or.inr h
    · simp only [if_neg hxy] at h
      cases hlt : strLt x y with
      | true =>
        rw [hlt] at h
        simp only [if_pos] at h
        rcases List.mem_cons.mp h with h | h
        · exact Or.inl h
        · exact Or.inr h
      | false =>
        rw [hlt] at h
        simp only [Bool.false_eq_true, if_neg, if_false] at h
        rcases List.mem_cons.mp h with h | h
        · exact Or.inr (List.mem_cons.mpr (Or.inl h))
        · rcases mem_insertEmail h with h' | h'
          · exact Or.inl h'
          · exact Or.inr (List.mem_cons_of_mem _ h')

theorem insertEmail_pairwise {x : String} : ∀ {l : List String},
    l.Pairwise (· < ·) → (insertEmail x l).Pairwise (· < ·)
  | [], _ => by simp [insertEmail]
  | y :: ys, h => by
    rcases List.pairwise_cons.mp h with ⟨hy, hys⟩
    unfold insertEmail
    by_cases hxy : x = y
    · simp only [if_pos hxy]
      exact h
    · simp only [if_neg hxy]
      cases hlt : strLt x y with
      | true =>
        simp only [if_pos]
        have hxylt : x < y := (strLt_iff_lt x y).mp hlt
        refine List.pairwise_cons.mpr ⟨?_, h⟩
        intro z hz
        rcases List.mem_cons.mp hz with hz | hz
        · exact hz ▸ hxylt
        · exact lt_trans hxylt (hy z hz)
      | false =>
        simp only [Bool.false_eq_true, if_neg, if_false]
        have hyx : y < x := by
          rcases lt_trichotomy x y with h3 | h3 | h3
          · rw [← strLt_iff_lt x y, hlt] at h3
            exact absurd h3 (by simp)
          · exact absurd h3 hxy
          · exact h3
        refine List.pairwise_cons.mpr ⟨?_, insertEmail_pairwise hys⟩
        intro z hz
        rcases mem_insertEmail hz with hz' | hz'
        · exact hz' ▸ hyx
        · exact hy z hz'

theorem dedupSort_pairwise : ∀ l : List String, (dedupSort l).Pairwise (· < ·)
  | [] => List.Pairwise.nil
  | _ :: xs => insertEmail_pairwise (dedupSort_pairwise xs)

theorem mem_dedupSort {z : String} : ∀ {l : List String}, z ∈ dedupSort l → z ∈ l
  | [], h => by simp [dedupSort] at h
  | x :: xs, h => by
    rcases mem_insertEmail (l := dedupSort xs) h with h' | h'
    · exact h' ▸ List.mem_cons_self x xs
    · exact List.mem_cons_of_mem _ (mem_dedupSort h')

/-- Every harvest result is either empty or the extraction of the
truncated, decoded body the fetch returned. -/
theorem harvest_emails_eq (rawUrl : String) (maxBytes : Nat)
    (fetch : String → FetchOutcome) :
    (harvest rawUrl maxBytes fetch).emails = [] ∨
    ∃ body, fetch (normalizeUrl rawUrl) = .success body ∧
      (harvest rawUrl maxBytes fetch).emails
        = extractEmails (decodeBytes (body.take maxBytes)) := by
  unfold harvest
  by_cases ht : pyStrip rawUrl = ""
  · simp [ht]
  · simp only [if_neg ht]
    cases hf : fetch (normalizeUrl rawUrl) with
    | failure => simp
    | success body => exact Or.inr ⟨body, rfl, rfl⟩

/-! ### Claims C1–C7: the harvester -/

/-- C1: harvest is a total function (the embedding returns a value on
every input and fetch outcome), and any transport-level failure of the
fetch yields the same empty sequence that a genuinely email-free page
(here: an empty body) yields. -/
theorem harvest_failure_is_empty (rawUrl : String) (maxBytes : Nat)
    (fetch : String → FetchOutcome)
    (h : fetch (normalizeUrl rawUrl) = FetchOutcome.failure) :
    (harvest rawUrl maxBytes fetch).emails = [] ∧
    (harvest rawUrl maxBytes fetch).emails
      = (harvest rawUrl maxBytes (fun _ => FetchOutcome.success [])).emails := by
  have hempty : extractEmails (decodeBytes []) = [] := rfl
  unfold harvest
  by_cases ht : pyStrip rawUrl = "" <;> simp [ht, h, List.take_nil, hempty]

theorem harvest_failure_is_empty_witness :
    (fun _ : String => FetchOutcome.failure) (normalizeUrl "example.com")
        = FetchOutcome.failure ∧
    (harvest "example.com" 200000 (fun _ => FetchOutcome.failure)).emails = [] :=
  ⟨rfl, (harvest_failure_is_empty "example.com" 200000 (fun _ => FetchOutcome.failure) rfl).1⟩

/-- C2: an input whose trimmed form is empty yields an empty sequence
and zero network calls. -/
theorem harvest_empty_input (rawUrl : String) (maxBytes : Nat)
    (fetch : String → FetchOutcome) (h : pyStrip rawUrl = "") :
    (harvest rawUrl maxBytes fetch).emails = [] ∧
    (harvest rawUrl maxBytes fetch).networkCalls = 0 := by
  unfold harvest
  simp [h]

theorem harvest_empty_input_witness :
    pyStrip " \t " = "" ∧
    (harvest " \t " 200000 (fun _ => FetchOutcome.success [97])).emails = [] ∧
    (harvest " \t " 200000 (fun _ => FetchOutcome.success [97])).networkCalls = 0 := by
  refine ⟨by decide, ?_, ?_⟩
  · exact (harvest_empty_input " \t " 200000 (fun _ => FetchOutcome.success [97]) (by decide)).1
  · exact (harvest_empty_input " \t " 200000 (fun _ => FetchOutcome.success [97]) (by decide)).2

/-- C3: the returned list is pairwise distinct (exact, case-sensitive
string equality) and sorted ascending by ordinary string comparison. -/
theorem harvest_sorted_distinct (rawUrl : String) (maxBytes : Nat)
    (fetch : String → FetchOutcome) :
    (harvest rawUrl maxBytes fetch).emails.Pairwise (· ≠ ·) ∧
    (harvest rawUrl maxBytes fetch).emails.Sorted (· < ·) := by
  have hs : (harvest rawUrl maxBytes fetch).emails.Sorted (· < ·) := by
    rcases harvest_emails_eq rawUrl maxBytes fetch with h | ⟨body, _, h⟩ <;> rw [h]
    · exact List.sorted_nil
    · exact dedupSort_pairwise _
  exact ⟨hs.imp ne_of_lt, hs⟩

/-- C4: no returned element case-insensitively ends with one of the
image suffixes .png, .jpg, .jpeg, .gif, .svg. -/
theorem harvest_no_image_suffix (rawUrl : String) (maxBytes : Nat)
    (fetch : String → FetchOutcome) :
    ∀ e ∈ (harvest rawUrl maxBytes fetch).emails,
      ∀ ext ∈ IMAGE_SUFFIXES, strHasSuf (pyLower e) ext = false := by
  intro e he ext hext
  rcases harvest_emails_eq rawUrl maxBytes fetch with h | ⟨body, _, h⟩
  · rw [h] at he
    exact absurd he (List.not_mem_nil e)
  · rw [h] at he
    unfold extractEmails at he
    have he' := mem_dedupSort he
    have hfilter := (List.mem_filter.mp he').2
    have hj : isJunk e = false := by
      cases hje : isJunk e
      · rfl
      · rw [hje] at hfilter
        exact absurd hfilter (by simp)
    unfold isJunk at hj
    have := List.any_eq_false.mp hj ext hext
    simpa using this

theorem harvest_no_image_suffix_witness :
    "contact@firm.co"
        ∈ (harvest "example.com" 200000 (fun _ => FetchOutcome.success
            (utf8Encode "<img src=\x22logo@2x.png\x22> contact@firm.co"))).emails ∧
    strHasSuf (pyLower "contact@firm.co") ".png" = false := by
  refine ⟨by decide, ?_⟩
  exact harvest_no_image_suffix "example.com" 200000
    (fun _ => FetchOutcome.success (utf8Encode "<img src=\x22logo@2x.png\x22> contact@firm.co"))
    "contact@firm.co" (by decide) ".png" (by decide)

/-- C5: for a non-empty trimmed input without an http:// or https://
scheme, the URL the fetch receives is https:// prepended to the trimmed
input; inputs already carrying a scheme are fetched as trimmed,
unchanged.  The last conjunct records that the fetch is consulted only
at the normalized URL. -/
theorem normalizeUrl_scheme (rawUrl : String) (h : pyStrip rawUrl ≠ "") :
    (strHasPre (pyStrip rawUrl) "http://" = false →
      strHasPre (pyStrip rawUrl) "https://" = false →
      normalizeUrl rawUrl = "https://" ++ pyStrip rawUrl) ∧
    (strHasPre (pyStrip rawUrl) "http://" = true ∨
        strHasPre (pyStrip rawUrl) "https://" = true →
      normalizeUrl rawUrl = pyStrip rawUrl) ∧
    ∀ maxBytes fetch, harvest rawUrl maxBytes fetch
        = harvest rawUrl maxBytes (fun _ => fetch (normalizeUrl rawUrl)) := by
  refine ⟨?_, ?_, ?_⟩
  · intro h1 h2
    unfold normalizeUrl
    simp [h1, h2]
  · intro h12
    unfold normalizeUrl
    rcases h12 with h1 | h1 <;> simp [h1]
  · intro maxBytes fetch
    unfold harvest
    simp [h]

theorem normalizeUrl_scheme_witness :
    pyStrip " example.com " ≠ "" ∧
    normalizeUrl " example.com " = "https://" ++ pyStrip " example.com " ∧
    normalizeUrl "http://a.b" = pyStrip "http://a.b" := by
  refine ⟨by decide, ?_, ?_⟩
  · exact (normalizeUrl_scheme " example.com " (by decide)).1 (by decide) (by decide)
  · exact (normalizeUrl_scheme "http://a.b" (by decide)).2.1 (Or.inl (by decide))

/-- C6: harvest is deterministic: against extensionally equal fetch
oracles (byte-identical page snapshots) the two calls return identical
outputs. -/
theorem harvest_deterministic (rawUrl : String) (maxBytes : Nat)
    (fetch₁ fetch₂ : String → FetchOutcome) (h : ∀ u, fetch₁ u = fetch₂ u) :
    harvest rawUrl maxBytes fetch₁ = harvest rawUrl maxBytes fetch₂ := by
  rw [funext h]

theorem harvest_deterministic_witness :
    harvest "example.com" 9 (fun _ => FetchOutcome.success [100])
      = harvest "example.com" 9 (fun _ => FetchOutcome.success [99 + 1]) :=
  harvest_deterministic "example.com" 9 _ _ (fun _ => rfl)

/-- C7: with a positive byte budget and a longer body, harvest scans
exactly the first maxBytes bytes: its output is the extraction of the
truncated body, and it cannot distinguish two bodies agreeing on their
first maxBytes bytes (so a match severed at the boundary is not
included, as the witness shows on a concrete severed address). -/
theorem harvest_truncates (rawUrl : String) (maxBytes : Nat)
    (fetch : String → FetchOutcome) (body : List Nat)
    (ht : pyStrip rawUrl ≠ "") (_hm : 0 < maxBytes) (_hlong : maxBytes < body.length)
    (hf : fetch (normalizeUrl rawUrl) = FetchOutcome.success body) :
    (harvest rawUrl maxBytes fetch).emails
      = extractEmails (decodeBytes (body.take maxBytes)) ∧
    ∀ fetch₂ body₂, fetch₂ (normalizeUrl rawUrl) = FetchOutcome.success body₂ →
      body.take maxBytes = body₂.take maxBytes →
      (harvest rawUrl maxBytes fetch).emails = (harvest rawUrl maxBytes fetch₂).emails := by
  have h1 : (harvest rawUrl maxBytes fetch).emails
      = extractEmails (decodeBytes (body.take maxBytes)) := by
    unfold harvest
    simp [ht, hf]
  refine ⟨h1, ?_⟩
  intro fetch₂ body₂ hf2 heq
  have h2 : (harvest rawUrl maxBytes fetch₂).emails
      = extractEmails (decodeBytes (body₂.take maxBytes)) := by
    unfold harvest
    simp [ht, hf2]
  rw [h1, h2, heq]

theorem harvest_truncates_witness :
    pyStrip "example.com" ≠ "" ∧ 0 < 5 ∧ 5 < (utf8Encode "a@bb.cc").length ∧
    (harvest "example.com" 5 (fun _ => FetchOutcome.success (utf8Encode "a@bb.cc"))).emails
      = [] ∧
    (harvest "example.com" 200000
        (fun _ => FetchOutcome.success (utf8Encode "a@bb.cc"))).emails = ["a@bb.cc"] := by
  refine ⟨by decide, by decide, by decide, ?_, by decide⟩
  have h := (harvest_truncates "example.com" 5
    (fun _ => FetchOutcome.success (utf8Encode "a@bb.cc")) (utf8Encode "a@bb.cc")
    (by decide) (by decide) (by decide) rfl).1
  rw [h]
  decide

/-! ### Claims C8–C10: account store and CRM -/

/-- C8: for whitespace-free email and password, creating an account not
already present and verifying with the same credentials succeeds; and
because create_user hashes the stripped password while verify_user
hashes the password as given, verification with the original string can
fail, as the closed second conjunct shows on a password with a leading
space. -/
theorem create_then_verify (db : List UserRow) (email password : String)
    (he : pyStrip email = email) (hp : pyStrip password = password)
    (hfresh : user_exists db email = false) :
    verify_user (create_user db email password) email password = true ∧
    verify_user (create_user [] "user@example.com" " secret") "user@example.com" " secret"
      = false := by
  constructor
  · have hfresh' : db.any (fun r => pyLower r.email == pyLower email) = false := hfresh
    have hnone : db.find? (fun r => pyLower r.email == pyLower email) = none := by
      rw [List.find?_eq_none]
      intro r hr
      exact List.any_eq_false.mp hfresh' r hr
    unfold verify_user create_user
    rw [List.find?_append, hnone, Option.none_or]
    rw [List.find?_cons_of_pos]
    · simp [hp]
    · simp [he]
  · decide

theorem create_then_verify_witness :
    pyStrip "x@y.z" = "x@y.z" ∧ pyStrip "pw" = "pw" ∧ user_exists [] "x@y.z" = false ∧
    verify_user (create_user [] "x@y.z" "pw") "x@y.z" "pw" = true := by
  refine ⟨by decide, by decide, rfl, ?_⟩
  exact (create_then_verify [] "x@y.z" "pw" (by decide) (by decide) rfl).1

/-- C9: email matching in the account store is case-insensitive: any
record whose lowercased email equals the lowercased query makes
user_exists true and is the kind of record verify_user checks against;
with no case-insensitive match (in particular on an empty table) both
user_exists and verify_user return false. -/
theorem user_lookup_case_insensitive (db : List UserRow) (variant : String) :
    ((∃ r ∈ db, pyLower r.email = pyLower variant) →
      user_exists db variant = true ∧
      ∀ password, ∃ r ∈ db, pyLower r.email = pyLower variant ∧
        (verify_user db variant password = true ↔
          r.password_hash = hash_password password)) ∧
    ((∀ r ∈ db, pyLower r.email ≠ pyLower variant) →
      user_exists db variant = false ∧
      ∀ password, verify_user db variant password = false) := by
  constructor
  · rintro ⟨r, hr, hre⟩
    have hex : user_exists db variant = true := by
      unfold user_exists
      rw [List.any_eq_true]
      exact ⟨r, hr, by simp [hre]⟩
    refine ⟨hex, ?_⟩
    intro password
    have hsome : (db.find? (fun r => pyLower r.email == pyLower variant)).isSome := by
      rw [List.find?_isSome]
      exact ⟨r, hr, by simp [hre]⟩
    cases hfind : db.find? (fun r => pyLower r.email == pyLower variant) with
    | none =>
      rw [hfind] at hsome
      exact absurd hsome (by simp)
    | some r' =>
      have hr' : r' ∈ db := List.mem_of_find?_eq_some hfind
      have hpr' : pyLower r'.email = pyLower variant := by
        have := List.find?_some hfind
        simpa using this
      refine ⟨r', hr', hpr', ?_⟩
      unfold verify_user
      rw [hfind]
      simp
  · intro hnone
    have hfalse : user_exists db variant = false := by
      unfold user_exists
      rw [List.any_eq_false]
      intro r hr
      simp [hnone r hr]
    refine ⟨hfalse, ?_⟩
    intro password
    have hfind : db.find? (fun r => pyLower r.email == pyLower variant) = none := by
      rw [List.find?_eq_none]
      intro r hr
      simp [hnone r hr]
    unfold verify_user
    rw [hfind]

theorem user_lookup_case_insensitive_witness :
    user_exists [⟨"A@B.com", "h1"⟩] "a@b.COM" = true ∧
    user_exists [⟨"A@B.com", "h1"⟩] "other@x.y" = false := by
  constructor
  · exact ((user_lookup_case_insensitive [⟨"A@B.com", "h1"⟩] "a@b.COM").1
      ⟨⟨"A@B.com", "h1"⟩, List.mem_cons_self _ _, by decide⟩).1
  · exact ((user_lookup_case_insensitive [⟨"A@B.com", "h1"⟩] "other@x.y").2 (by decide)).1

/-- C10: the Save Quick Update handler writes back a table of the same
length in which every row other than the selected one is unchanged, and
the selected row keeps every field except status and next_follow_up,
which take the new values. -/
theorem quickUpdate_frame (df : List CrmRecord) (idx : Nat)
    (newStatus newFollowUp : String) (r : CrmRecord) (h : df[idx]? = some r) :
    (saveQuickUpdate df idx newStatus newFollowUp).length = df.length ∧
    (saveQuickUpdate df idx newStatus newFollowUp)[idx]?
      = some { r with status := newStatus, next_follow_up := newFollowUp } ∧
    (∀ j, j ≠ idx → (saveQuickUpdate df idx newStatus newFollowUp)[j]? = df[j]?) ∧
    ∀ r', (saveQuickUpdate df idx newStatus newFollowUp)[idx]? = some r' →
      r'.id = r.id ∧ r'.customer_name = r.customer_name ∧
      r'.company_name = r.company_name ∧ r'.phone = r.phone ∧ r'.email = r.email ∧
      r'.address = r.address ∧ r'.city = r.city ∧ r'.state = r.state ∧
      r'.zip_code = r.zip_code ∧ r'.lead_source = r.lead_source ∧
      r'.building_type = r.building_type ∧ r'.service_type = r.service_type ∧
      r'.roof_type = r.roof_type ∧ r'.square_feet = r.square_feet ∧
      r'.estimated_value = r.estimated_value ∧ r'.notes = r.notes ∧
      r'.status = newStatus ∧ r'.next_follow_up = newFollowUp := by
  have hlt : idx < df.length := by
    rcases List.getElem?_eq_some.mp h with ⟨hlt, _⟩
    exact hlt
  unfold saveQuickUpdate save_data quickUpdate
  rw [h]
  refine ⟨List.length_set df idx _, List.getElem?_set_self hlt, ?_, ?_⟩
  · intro j hj
    exact List.getElem?_set_ne (Ne.symm hj)
  · intro r' hr'
    rw [List.getElem?_set_self hlt] at hr'
    cases hr'
    exact ⟨rfl, rfl, rfl, rfl, rfl, rfl, rfl, rfl, rfl, rfl, rfl, rfl, rfl, rfl, rfl, rfl,
      rfl, rfl⟩

/-- A sample CRM row used by the frame witness. -/
def sampleRow : CrmRecord :=
  { id := "1", customer_name := "Ann", company_name := "ACo", phone := "555",
    email := "a@x.com", address := "1 St", city := "Fresno", state := "CA",
    zip_code := "93701", lead_source := "Referral", building_type := "Commercial",
    service_type := "Spray Foam Roof", roof_type := "Flat", square_feet := "1000",
    estimated_value := "5000", status := "New Lead", next_follow_up := "2026-01-01",
    notes := "call" }

/-- A second sample CRM row used by the frame witness. -/
def sampleRow2 : CrmRecord :=
  { sampleRow with id := "2", customer_name := "Bob", status := "Quoted" }

theorem quickUpdate_frame_witness :
    [sampleRow, sampleRow2][0]? = some sampleRow ∧
    (saveQuickUpdate [sampleRow, sampleRow2] 0 "Contacted" "2026-02-01").length = 2 ∧
    ∀ j, j ≠ 0 →
      (saveQuickUpdate [sampleRow, sampleRow2] 0 "Contacted" "2026-02-01")[j]?
        = [sampleRow, sampleRow2][j]? := by
  have h := quickUpdate_frame [sampleRow, sampleRow2] 0 "Contacted" "2026-02-01" sampleRow rfl
  exact ⟨rfl, h.1, h.2.2.1⟩

end BlankApp
